import Mathlib

/-!
Verification of the MzKit core data structures against their specification.

This file gives a shallow embedding, in Lean 4, of the parts of the MzKit
repository that the checked claims are about:

* the mass-lane tracker `build_features_masscube` / `_find_closest_idx`
  (src/core/data_structs/scan_array.py),
* the sparse scan container `ScanArray` with `get_bpc`, `rt_to_scan_num`,
  `make_feature_pointer` and the builder `build_scan_array`,
* `FeaturePointer` and its read operations (src/core/data_structs/feature_pointer.py),
* the Pearson-correlation co-feature matcher and the cross-array matcher
  (src/core/cli/find_cofeatures.py),
* the `Ensemble` base-feature computation (src/core/data_structs/ensemble.py).

Machine floats are modelled by `ℚ` (the source only uses arithmetic,
comparisons, `abs`, `min`/`max` on them, plus one square root handled
separately via `Real.sqrt`).  NumPy arrays are modelled by `List ℚ`; the
sparse matrices are modelled by their dense equivalent `List (List ℚ)` in
which the value `0` denotes an unpopulated cell (SciPy stores exactly the
nonzero entries of the dense matrix).  Fallible operations return `Except`
or `Option`; `getD`-style defaults are only used where the source
guarantees the index is in range (each such place is noted).
-/

/-- One centroided peak of a spectrum: an (m/z, intensity) pair. -/
structure Peak where
  mz : ℚ
  intsy : ℚ
deriving DecidableEq

/-- One scan handed to the tracker: `oms.MSSpectrum.get_peaks()` plus `getRT()`. -/
structure Spectrum where
  peaks : List Peak
  rt : ℚ
deriving DecidableEq

/-- Tracking state of one mass lane, from `Feature` in scan_array.py:
fixed-length per-scan arrays (`np.zeros(total_num_scans)` per field) plus the
gap counter. -/
structure Feature where
  mzArr : List ℚ
  intsyArr : List ℚ
  rtArr : List ℚ
  gapCounter : ℕ
deriving DecidableEq

/-- Source `np.where(intsy > 0)[0].max()`: the last index holding a positive
intensity (the scan index of `Feature.latest_scan`).  The source raises on a
feature with no positive cell; the tracker only calls this on features that
own at least one recorded positive-intensity cell, so the default `0` is
never reached there. -/
def latestIdx (intsy : List ℚ) : ℕ :=
  ((List.range intsy.length).filter (fun j => decide (0 < intsy.getD j 0))).foldr max 0

/-- Source `Feature.latest_scan['mz']`: m/z of the most recent nonzero scan. -/
def latestMz (f : Feature) : ℚ :=
  f.mzArr.getD (latestIdx f.intsyArr) 0

/-- Source `Feature.latest_scan['intsy']`: intensity of the most recent nonzero scan. -/
def latestIntsy (f : Feature) : ℚ :=
  f.intsyArr.getD (latestIdx f.intsyArr) 0

/-- First-minimum search: returns `(index, value)` of the first smallest
element, i.e. the behaviour of `np.argmin` (`none` on the empty list, where
NumPy raises). -/
def argminIdx : List ℚ → Option (ℕ × ℚ)
  | [] => none
  | x :: xs =>
    match argminIdx xs with
    | none => some (0, x)
    | some (j, m) => if x ≤ m then some (0, x) else some (j + 1, m)

/-- Source `np.argmin` with NumPy's first-minimum tie-break (default `0` on the
empty list, where NumPy raises). -/
def argminIdxD (l : List ℚ) : ℕ :=
  match argminIdx l with
  | none => 0
  | some (j, _) => j

/-- First-maximum search, the behaviour of `np.argmax` (`none` on empty). -/
def argmaxIdx : List ℚ → Option (ℕ × ℚ)
  | [] => none
  | x :: xs =>
    match argmaxIdx xs with
    | none => some (0, x)
    | some (j, m) => if m ≤ x then some (0, x) else some (j + 1, m)

/-- Source `np.argmax` with first-maximum tie-break (default `0` on empty). -/
def argmaxIdxD (l : List ℚ) : ℕ :=
  match argmaxIdx l with
  | none => 0
  | some (j, _) => j

/-- Source `_find_closest_idx(arr, target, tolerance)` from scan_array.py: index of
the element of `arr` closest to `target` (first minimum of `|arr - target|`),
or `none` (the source's `-1`) when that smallest difference is not strictly
below `tolerance`. -/
def findClosestIdx (arr : List ℚ) (target tol : ℚ) : Option ℕ :=
  match argminIdx (arr.map (fun x => |x - target|)) with
  | none => none
  | some (j, d) => if d < tol then some j else none

/-- The acceptance test of the per-frame loop in `build_features_masscube`:
`min_idx = _find_closest_idx(...)`; the match is taken iff `min_idx != -1`
and `avlb_signals[min_idx]` is still `True`. -/
def matchFeature (specMz : List ℚ) (tol : ℚ) (avail : List Bool) (target : ℚ) :
    Option ℕ :=
  match findClosestIdx specMz target tol with
  | some j => if avail.getD j false then some j else none
  | none => none

/-- Writing a matched signal into a feature: the three `ftr.array[...][scan_num] = ...`
assignments plus `ftr.gap_counter = 0`. -/
def applyMatch (f : Feature) (scanNum : ℕ) (mz intsy rt : ℚ) : Feature :=
  { mzArr := f.mzArr.set scanNum mz
    intsyArr := f.intsyArr.set scanNum intsy
    rtArr := f.rtArr.set scanNum rt
    gapCounter := 0 }

/-- The `for i, ftr in enumerate(wip_features)` loop of one frame.  Returns,
in feature order, each updated feature together with its `to_be_moved` flag
(gap counter exceeded while unmatched) and the index of the signal assigned
to it (if any), plus the final `avlb_signals` state. -/
def processWip (specMz specIntsy : List ℚ) (rt : ℚ) (scanNum : ℕ) (tol : ℚ)
    (gapTol : ℕ) :
    List Feature → List Bool → List ((Feature × Bool) × Option ℕ) × List Bool
  | [], avail => ([], avail)
  | f :: fs, avail =>
    match matchFeature specMz tol avail (latestMz f) with
    | some j =>
      let f' := applyMatch f scanNum (specMz.getD j 0) (specIntsy.getD j 0) rt
      let rest := processWip specMz specIntsy rt scanNum tol gapTol fs
        (avail.set j false)
      (((f', false), some j) :: rest.1, rest.2)
    | none =>
      let f' : Feature :=
        { mzArr := f.mzArr, intsyArr := f.intsyArr, rtArr := f.rtArr
          gapCounter := f.gapCounter + 1 }
      let rest := processWip specMz specIntsy rt scanNum tol gapTol fs avail
      (((f', decide (gapTol < f'.gapCounter)), none) :: rest.1, rest.2)

/-- Source `Feature(total_num_scans)` followed by the three cell writes at
`scan_num` (used both for first-frame initialization with `scan_num = 0`
and for the new-lane creation of later frames). -/
def newFeature (total scanNum : ℕ) (mz intsy rt : ℚ) : Feature :=
  { mzArr := (List.replicate total (0 : ℚ)).set scanNum mz
    intsyArr := (List.replicate total (0 : ℚ)).set scanNum intsy
    rtArr := (List.replicate total (0 : ℚ)).set scanNum rt
    gapCounter := 0 }

/-- First-frame initialization of `build_features_masscube`: one feature per
peak of `spectra[0].get_peaks()` — note the source applies no intensity
filtering to the first frame. -/
def initFeatures (total : ℕ) (s : Spectrum) : List Feature :=
  s.peaks.map (fun p => newFeature total 0 p.mz p.intsy s.rt)

/-- Source `_get_peaks_higher_than_intsy`: keep the peaks with intensity strictly
greater than the threshold. -/
def filterPeaks (s : Spectrum) (minIntsy : ℚ) : List Peak :=
  s.peaks.filter (fun p => decide (minIntsy < p.intsy))

/-- Source `np.mean` modelled on `ℚ`: sum divided by length (the `ℚ`-junk value `0`
on the empty list, where NumPy yields NaN). -/
def listMean (l : List ℚ) : ℚ :=
  l.sum / l.length

/-- Source `Feature.nonzero_scans['mz']`: the m/z cells at the scans with positive
intensity. -/
def nonzeroMzs (f : Feature) : List ℚ :=
  ((List.range f.intsyArr.length).filter (fun j => decide (0 < f.intsyArr.getD j 0))).map
    (fun j => f.mzArr.getD j 0)

/-- Sort key of the final feature sort: `np.mean(x.nonzero_scans['mz'])`. -/
def meanNonzeroMz (f : Feature) : ℚ :=
  listMean (nonzeroMzs f)

/-- Processing of one frame `scan_num ≥ 1` inside `build_features_masscube`:
intensity filtering, the skip rule for fewer than two surviving signals, the
matching loop, the move of gap-expired lanes (popped from the highest index
first, hence appended in reversed order), the creation of new lanes for
unclaimed signals, and the stable re-sort of the active lanes by descending
latest intensity.  State is `(wip_features, final_features)`. -/
def frameStep (tol : ℚ) (gapTol : ℕ) (minIntsy : ℚ) (total scanNum : ℕ)
    (st : List Feature × List Feature) (s : Spectrum) :
    List Feature × List Feature :=
  let peaks := filterPeaks s minIntsy
  let specMz := peaks.map Peak.mz
  let specIntsy := peaks.map Peak.intsy
  if specMz.length < 2 then st
  else
    let pr := processWip specMz specIntsy s.rt scanNum tol gapTol st.1
      (List.replicate specMz.length true)
    let kept := (pr.1.filter (fun x => !x.1.2)).map (fun x => x.1.1)
    let moved := ((pr.1.filter (fun x => x.1.2)).map (fun x => x.1.1)).reverse
    let news := ((List.range specMz.length).filter
      (fun i => pr.2.getD i false)).map
      (fun i => newFeature total scanNum (specMz.getD i 0) (specIntsy.getD i 0) s.rt)
    let wip2 := (kept ++ news).insertionSort
      (fun a b => latestIntsy b ≤ latestIntsy a)
    (wip2, st.2 ++ moved)

/-- Source `build_features_masscube(spectra, mz_tolerance, scan_gap_tolerance, min_intsy)`:
initialize from the first frame, fold the frame step over the remaining
frames, flush the surviving active lanes, and sort everything by mean
nonzero m/z (a stable ascending sort).  The source indexes `spectra[0]`, so
the empty input (which errors upstream) is mapped to `[]`. -/
def buildFeaturesMasscube (spectra : List Spectrum) (tol : ℚ) (gapTol : ℕ)
    (minIntsy : ℚ) : List Feature :=
  match spectra with
  | [] => []
  | s0 :: rest =>
    let total := rest.length + 1
    let st := (rest.enumFrom 1).foldl
      (fun st p => frameStep tol gapTol minIntsy total p.1 st p.2)
      (initFeatures total s0, ([] : List Feature))
    (st.2 ++ st.1).insertionSort (fun a b => meanNonzeroMz a ≤ meanNonzeroMz b)

/-- Source `np.max` over a list (default `0` on the empty list, where NumPy raises;
every use below is guarded by nonemptiness of the underlying data). -/
def npMax (l : List ℚ) : ℚ :=
  match l with
  | [] => 0
  | x :: xs => xs.foldl max x

/-- Source `np.min` over a list (default `0` on empty, as for `npMax`). -/
def npMin (l : List ℚ) : ℚ :=
  match l with
  | [] => 0
  | x :: xs => xs.foldl min x

/-- Source `np.max` over a list of naturals (default `0` on empty). -/
def npMaxNat (l : List ℕ) : ℕ :=
  match l with
  | [] => 0
  | x :: xs => xs.foldl max x

/-- Source `np.min` over a list of naturals (default `0` on empty). -/
def npMinNat (l : List ℕ) : ℕ :=
  match l with
  | [] => 0
  | x :: xs => xs.foldl min x

/-- The `ScanArray` container of scan_array.py.  The two sparse matrices are
modelled densely (`0` = unpopulated cell), shaped lanes × scans with the
scan count given by `rtArr.length`.  `uuid` is the identity drawn by
`uuid.uuid4().int` at construction; the builder below takes it as a
parameter since it is a random value. -/
structure ScanArray where
  mzArr : List (List ℚ)
  intsyArr : List (List ℚ)
  rtArr : List ℚ
  scanNumArr : List ℕ
  uuid : ℕ
deriving DecidableEq

/-- Per-lane `__post_init__` label: the m/z at the column of maximum
intensity (`intsy_arr.argmax(axis=1)` with NumPy's first-maximum
tie-break, then `mz_arr[row, max_col]`). -/
def mzLaneLabel (A : ScanArray) : List ℚ :=
  (A.intsyArr.zip A.mzArr).map (fun rows => rows.2.getD (argmaxIdxD rows.1) 0)

/-- Lane indices whose label lies in the inclusive range, i.e.
`np.where((label >= lo) & (label <= hi))[0]` in `get_bpc`/`get_xic`. -/
def matchedLanes (A : ScanArray) (lo hi : ℚ) : List ℕ :=
  (List.range (mzLaneLabel A).length).filter
    (fun i => decide (lo ≤ (mzLaneLabel A).getD i 0) &&
      decide ((mzLaneLabel A).getD i 0 ≤ hi))

/-- NumPy truthiness of an index array: `match_arr.any()` is `True` iff some
element is nonzero — NOT iff the array is nonempty.  This is exactly the
test `get_bpc` uses on the matched lane indices. -/
def idxArrAny (idxs : List ℕ) : Bool :=
  idxs.any (fun i => decide (i ≠ 0))

/-- Column-wise maximum of the selected lanes: `intsy_arr[match_arr].max(0)`
(SciPy's sparse max along an axis agrees with the dense maximum, implicit
zeros being the dense zeros). -/
def colMaxLanes (A : ScanArray) (lanes : List ℕ) (j : ℕ) : ℚ :=
  npMax (lanes.map (fun i => (A.intsyArr.getD i []).getD j 0))

/-- Source `ScanArray.get_bpc(mz_range)` with `rt_range = None` (the claims touch
only the mass-range restriction; the retention-time slice `argrange` applies
afterwards and is orthogonal).  With a range: restrict to the matching
lanes, and if the index array is truthy take the column-wise max, else
`np.zeros(len(rt_arr))`; with no range, the column-wise max of everything. -/
def getBpc (A : ScanArray) (mzRange : Option (ℚ × ℚ)) : List ℚ :=
  match mzRange with
  | some (lo, hi) =>
    let m := matchedLanes A lo hi
    if idxArrAny m then
      (List.range A.rtArr.length).map (fun j => colMaxLanes A m j)
    else
      List.replicate A.rtArr.length (0 : ℚ)
  | none =>
    (List.range A.rtArr.length).map
      (fun j => colMaxLanes A (List.range A.intsyArr.length) j)

/-- Source `ScanArray.rt_to_scan_num(rt)`: `np.argmin(np.abs(rt_arr - rt))`. -/
def rtToScanNum (A : ScanArray) (rt : ℚ) : ℕ :=
  argminIdxD (A.rtArr.map (fun x => |x - rt|))

/-- Source `build_scan_array`: `None` models the two `ValueError`s (negative
`min_intsy`, and no features found).  The stacked feature arrays become the
two matrices; the retention time of a scan is the per-column maximum over
all features; `scan_nums` falls back to `range(len(spectra))` when absent
or empty (Python truthiness of the argument). -/
def buildScanArray (spectra : List Spectrum) (tol : ℚ) (gapTol : ℕ)
    (minIntsy : ℚ) (scanNums : Option (List ℕ)) (uid : ℕ) : Option ScanArray :=
  if minIntsy < 0 then none
  else
    let fs := buildFeaturesMasscube spectra tol gapTol minIntsy
    match fs with
    | [] => none
    | _ =>
      some
        { mzArr := fs.map Feature.mzArr
          intsyArr := fs.map Feature.intsyArr
          rtArr := (List.range spectra.length).map
            (fun j => npMax (fs.map (fun f => f.rtArr.getD j 0)))
          scanNumArr :=
            match scanNums with
            | some (x :: xs) => x :: xs
            | _ => List.range spectra.length
          uuid := uid }

/-- Source `FeaturePointer`: lane index, scan-index set (sorted ascending by
`__post_init__`), plus identity and shape of the owning array. -/
structure FeaturePointer where
  mzLaneIdx : ℕ
  scanIdxs : List ℕ
  sourceArrayUuid : ℕ
  sourceArrayShape : ℕ × ℕ
deriving DecidableEq

/-- Source `ScanArray.make_feature_pointer`: the factory binds the array's identity
and shape and defaults the scan-index set to the full scan range; the
pointer's `__post_init__` sorts the indices in place. -/
def makeFeaturePointer (A : ScanArray) (lane : ℕ) (scanIdxs : Option (List ℕ)) :
    FeaturePointer :=
  { mzLaneIdx := lane
    scanIdxs := (scanIdxs.getD (List.range A.scanNumArr.length)).insertionSort (· ≤ ·)
    sourceArrayUuid := A.uuid
    sourceArrayShape := (A.mzArr.length, A.rtArr.length) }

/-- Source `FeaturePointer.scan_start = scan_idxs[0]` (the source raises on an
empty index set; pointers are always created nonempty). -/
def scanStart (p : FeaturePointer) : ℕ :=
  p.scanIdxs.headD 0

/-- Source `FeaturePointer.scan_end = scan_idxs[-1]`. -/
def scanEnd (p : FeaturePointer) : ℕ :=
  p.scanIdxs.getLastD 0

/-- The two failure modes of the pointer read operations. -/
inductive ReadError where
  | uuidMismatch : ReadError
  | emptyData : ReadError
deriving DecidableEq

/-- Source `FeaturePointer.validate_source`: raise iff the array's identity differs
from the recorded identity. -/
def validateSource (p : FeaturePointer) (A : ScanArray) : Except ReadError Unit :=
  if A.uuid ≠ p.sourceArrayUuid then Except.error ReadError.uuidMismatch
  else Except.ok ()

/-- Python slice `l[a:b]` for natural bounds (clips at the length). -/
def pySlice (l : List α) (a b : ℕ) : List α :=
  (l.drop a).take (b - a)

/-- Source `FeaturePointer.get_mz_values`: validate, then densify the row slice
`mz_arr[lane, scan_start:scan_end]`. -/
def getMzValues (p : FeaturePointer) (A : ScanArray) : Except ReadError (List ℚ) :=
  match validateSource p A with
  | Except.error e => Except.error e
  | Except.ok _ => Except.ok (pySlice (A.mzArr.getD p.mzLaneIdx []) (scanStart p) (scanEnd p))

/-- Source `FeaturePointer.get_intensity_values`. -/
def getIntensityValues (p : FeaturePointer) (A : ScanArray) :
    Except ReadError (List ℚ) :=
  match validateSource p A with
  | Except.error e => Except.error e
  | Except.ok _ =>
    Except.ok (pySlice (A.intsyArr.getD p.mzLaneIdx []) (scanStart p) (scanEnd p))

/-- Source `FeaturePointer.get_retention_times`: validate, then `rt_arr[start:end]`. -/
def getRetentionTimes (p : FeaturePointer) (A : ScanArray) :
    Except ReadError (List ℚ) :=
  match validateSource p A with
  | Except.error e => Except.error e
  | Except.ok _ => Except.ok (pySlice A.rtArr (scanStart p) (scanEnd p))

/-- Source `FeaturePointer.get_chrom_array`: the paired (rt, intensity) series. -/
def getChromArray (p : FeaturePointer) (A : ScanArray) :
    Except ReadError (List (ℚ × ℚ)) :=
  match getRetentionTimes p A with
  | Except.error e => Except.error e
  | Except.ok rts =>
    match getIntensityValues p A with
    | Except.error e => Except.error e
    | Except.ok intsys => Except.ok (rts.zip intsys)

/-- Source `FeaturePointer.get_max_intsy`: `.max()` of the resolved intensity
series (NumPy raises on an empty series, modelled by `emptyData`). -/
def getMaxIntsy (p : FeaturePointer) (A : ScanArray) : Except ReadError ℚ :=
  match getIntensityValues p A with
  | Except.error e => Except.error e
  | Except.ok [] => Except.error ReadError.emptyData
  | Except.ok (x :: xs) => Except.ok (npMax (x :: xs))

/-- Source `FeaturePointer.get_max_intsy_scan_num`: apex position (first maximum),
its retention time, then the array's nearest-scan lookup. -/
def getMaxIntsyScanNum (p : FeaturePointer) (A : ScanArray) : Except ReadError ℕ :=
  match getIntensityValues p A with
  | Except.error e => Except.error e
  | Except.ok v =>
    match getRetentionTimes p A with
    | Except.error e => Except.error e
    | Except.ok rts => Except.ok (rtToScanNum A (rts.getD (argmaxIdxD v) 0))

/-- The jointly-nonzero positions of `_calculate_pearson_correlations`:
`nonzero_mask = (candidate != 0) & (search != 0)`, with the two masked
series kept as pairs. -/
def jointPairs (c r : List ℚ) : List (ℚ × ℚ) :=
  (c.zip r).filter (fun p => decide (p.1 ≠ 0) && decide (p.2 ≠ 0))

/-- Mean of the candidate's jointly-nonzero values (`candidate_nonzero.mean()`). -/
def jointMeanFst (c r : List ℚ) : ℚ :=
  listMean ((jointPairs c r).map Prod.fst)

/-- Mean of the reference's jointly-nonzero values (`search_nonzero.mean()`). -/
def jointMeanSnd (c r : List ℚ) : ℚ :=
  listMean ((jointPairs c r).map Prod.snd)

/-- Source `numerator = np.dot(candidate_centered, search_centered)`. -/
def centeredNum (c r : List ℚ) : ℚ :=
  ((jointPairs c r).map
    (fun p => (p.1 - jointMeanFst c r) * (p.2 - jointMeanSnd c r))).sum

/-- The square of the code's `denominator`, kept in `ℚ`:
`np.sum(candidate_centered ** 2) * np.sum(search_centered ** 2)`  (the code
then takes `np.sqrt`; note a float square root is zero iff its radicand is). -/
def centeredDen2 (c r : List ℚ) : ℚ :=
  ((jointPairs c r).map (fun p => (p.1 - jointMeanFst c r) ^ 2)).sum *
    ((jointPairs c r).map (fun p => (p.2 - jointMeanSnd c r) ^ 2)).sum

/-- One candidate's correlation in `_calculate_pearson_correlations`:
`none` models NaN (fewer than `min_nonzero_overlap = 4` jointly nonzero
positions, or a zero denominator); otherwise the pair
(numerator, denominator²) from which the float result is
`numerator / sqrt(denominator²)`. -/
def pearsonRaw (c r : List ℚ) : Option (ℚ × ℚ) :=
  if (jointPairs c r).length < 4 then none
  else if centeredDen2 c r = 0 then none
  else some (centeredNum c r, centeredDen2 c r)

/-- The real value of a defined correlation: `numerator / denominator` with
`denominator = sqrt(denominator²)`. -/
noncomputable def pearsonVal (p : ℚ × ℚ) : ℝ :=
  (p.1 : ℝ) / Real.sqrt (p.2 : ℝ)

/-- Source `np.interp` on one query point: piecewise-linear interpolation through
the points `xp` (paired with `fp`), clamped to the end values outside the
span.  `np.interp` demands a nonempty `xp`; the empty case yields `0`. -/
def interp1 : List (ℚ × ℚ) → ℚ → ℚ
  | [], _ => 0
  | [(_, y0)], _ => y0
  | (x0, y0) :: (x1, y1) :: rest, t =>
    if t ≤ x0 then y0
    else if t ≤ x1 then y0 + (y1 - y0) * (t - x0) / (x1 - x0)
    else interp1 ((x1, y1) :: rest) t

/-- Source `np.interp(x, xp, fp)` over lists. -/
def npInterp (x xp fp : List ℚ) : List ℚ :=
  x.map (interp1 (xp.zip fp))

/-- The target-scan selection of `find_cofeatures_across_scan_array`:
`np.where((rt_start < target.rt_arr) & (target.rt_arr < rt_end))[0]` —
strict comparison on both sides. -/
def targetScanIdxs (tgt : ScanArray) (rtStart rtEnd : ℚ) : List ℕ :=
  (List.range tgt.rtArr.length).filter
    (fun j => decide (rtStart < tgt.rtArr.getD j 0) &&
      decide (tgt.rtArr.getD j 0 < rtEnd))

/-- The interpolated reference series built by
`find_cofeatures_across_scan_array`: the reference's retention-time span
(min/max of its resolved rt series), the strictly-in-span target scan
indices, the half-open slice `rt_arr[idxs.min():idxs.max()]` of the
target's retention times, and `np.interp` of the reference intensity series
onto those times (optionally normalized first, `use_rel_intsy`).  Identity
validation of the pointer against `src` happens before this point in the
source and is orthogonal here. -/
def acrossInterpSeries (src tgt : ScanArray) (p : FeaturePointer)
    (useRel : Bool) : List ℚ :=
  let rtsSearch := pySlice src.rtArr (scanStart p) (scanEnd p)
  let idxs := targetScanIdxs tgt (npMin rtsSearch) (npMax rtsSearch)
  let tStart := npMinNat idxs
  let tEnd := npMaxNat idxs
  let rtSource := pySlice src.rtArr (scanStart p) (scanEnd p)
  let xic := pySlice (src.intsyArr.getD p.mzLaneIdx []) (scanStart p) (scanEnd p)
  let searchXic := if useRel then xic.map (fun v => v / npMax xic) else xic
  npInterp (pySlice tgt.rtArr tStart tEnd) rtSource searchXic

/-- A Python list comprehension of fallible element computations: stops at
the first raised error (models `[x.get_max_intsy(...) for x in ...]`). -/
def exceptMap (f : α → Except ε β) : List α → Except ε (List β)
  | [] => Except.ok []
  | x :: xs =>
    match f x with
    | Except.error e => Except.error e
    | Except.ok y =>
      match exceptMap f xs with
      | Except.error e => Except.error e
      | Except.ok ys => Except.ok (y :: ys)

/-- A placeholder pointer for `List.getD`; the uses below are guarded by an
index bound so it is never read. -/
def dfltPtr : FeaturePointer :=
  { mzLaneIdx := 0, scanIdxs := [], sourceArrayUuid := 0, sourceArrayShape := (0, 0) }

/-- The base-cofeature computation of `Ensemble._populate_attrs` (the part
the claim is about): the apex intensity of every primary-list pointer
(`get_max_intsy`, raising on any failure), `np.argmax` of that array to get
the base index (NumPy raises on an empty list), and the base apex mass
`base_ftr_ptr.get_mz_values(...).mean()` — the mean of the densified slice. -/
def populateBase (ms1 : List FeaturePointer) (A : ScanArray) :
    Except ReadError (ℕ × ℚ) :=
  match exceptMap (fun p => getMaxIntsy p A) ms1 with
  | Except.error e => Except.error e
  | Except.ok [] => Except.error ReadError.emptyData
  | Except.ok (y :: ys) =>
    match getMzValues (ms1.getD (argmaxIdxD (y :: ys)) dfltPtr) A with
    | Except.error e => Except.error e
    | Except.ok mzs => Except.ok (argmaxIdxD (y :: ys), listMean mzs)

/-- Modelled from the spec for the comparison in claim C8: the mean of a
resolved mass series taken across its populated (nonzero) cells only. -/
def specPopulatedMean (l : List ℚ) : ℚ :=
  listMean (l.filter (fun v => decide (v ≠ 0)))

/-- A placeholder feature for `List.getD` in statements; never read under the
stated index bounds. -/
def dfltFeature : Feature :=
  { mzArr := [], intsyArr := [], rtArr := [], gapCounter := 0 }

/-- A placeholder peak for `List.getD` in statements. -/
def dfltPeak : Peak :=
  { mz := 0, intsy := 0 }

/-- Concrete three-scan acquisition: the second and third scans carry a
single peak each, so the tracker's `< 2 signals` rule skips them and their
retention-time slots stay `0`. -/
def demoSpectra : List Spectrum :=
  [{ peaks := [{ mz := 5, intsy := 10 }], rt := 1 },
   { peaks := [{ mz := 6, intsy := 10 }], rt := 2 },
   { peaks := [{ mz := 7, intsy := 10 }], rt := 3 }]

/-- A two-scan lane whose only recorded signal sits at scan 0 with mass 10. -/
def c1Feature : Feature :=
  { mzArr := [10, 0], intsyArr := [1, 0], rtArr := [0, 0], gapCounter := 0 }

/-- Two-lane array: lane 0 is labelled 400.5 (in range (400, 401)), lane 1 is
labelled 500.  Used against `get_bpc`. -/
def a7 : ScanArray :=
  { mzArr := [[801/2, 801/2], [500, 500]], intsyArr := [[7, 3], [1, 1]],
    rtArr := [1, 2], scanNumArr := [0, 1], uuid := 0 }

/-- One-lane, three-scan array whose lane is populated at scans 0 and 2 only. -/
def a8 : ScanArray :=
  { mzArr := [[100, 0, 100]], intsyArr := [[10, 0, 2]], rtArr := [1, 2, 3],
    scanNumArr := [0, 1, 2], uuid := 7 }

/-- Pointer into `a8` spanning all three scans (resolved series covers scans
0 and 1 by the half-open window). -/
def p8 : FeaturePointer :=
  { mzLaneIdx := 0, scanIdxs := [0, 1, 2], sourceArrayUuid := 7,
    sourceArrayShape := (1, 3) }

/-- Source array of the cross-array scenario: five scans spanning retention
times 10.0–10.4. -/
def src5 : ScanArray :=
  { mzArr := [[1, 1, 1, 1, 1]], intsyArr := [[1, 2, 3, 4, 5]],
    rtArr := [10, 101/10, 102/10, 103/10, 104/10],
    scanNumArr := [0, 1, 2, 3, 4], uuid := 0 }

/-- Target array of the cross-array scenario: three scans spanning retention
times 10.1–10.3. -/
def tgt3 : ScanArray :=
  { mzArr := [[1, 1, 1]], intsyArr := [[1, 2, 3]],
    rtArr := [101/10, 102/10, 103/10], scanNumArr := [0, 1, 2], uuid := 1 }

/-- Reference pointer of the cross-array scenario: all five source scans. -/
def p5 : FeaturePointer :=
  { mzLaneIdx := 0, scanIdxs := [0, 1, 2, 3, 4], sourceArrayUuid := 0,
    sourceArrayShape := (1, 5) }

/-- Array for the identity-validation witness. -/
def wA : ScanArray :=
  { mzArr := [[100, 101]], intsyArr := [[3, 4]], rtArr := [1, 2],
    scanNumArr := [0, 1], uuid := 11 }

/-- An array with exactly the shape and content of `wA` but another
identity. -/
def wB : ScanArray :=
  { mzArr := [[100, 101]], intsyArr := [[3, 4]], rtArr := [1, 2],
    scanNumArr := [0, 1], uuid := 12 }

/-- Pointer created from `wA`. -/
def wP : FeaturePointer :=
  { mzLaneIdx := 0, scanIdxs := [0, 1], sourceArrayUuid := 11,
    sourceArrayShape := (1, 2) }

/-- The sparsity invariant of one tracked lane: the mass and intensity
arrays have the same length and a cell is nonzero in one iff it is nonzero
in the other. -/
def FtrInv (f : Feature) : Prop :=
  f.mzArr.length = f.intsyArr.length ∧
    ∀ j, (f.mzArr.getD j 0 ≠ 0 ↔ f.intsyArr.getD j 0 ≠ 0)

/-! ### Generic helper lemmas -/

lemma getD_set_iff {α : Type _} (l : List α) (i j : ℕ) (a d : α) :
    (l.set i a).getD j d = if i = j ∧ i < l.length then a else l.getD j d := by
  rw [List.getD_eq_getElem?_getD, List.getD_eq_getElem?_getD, List.getElem?_set]
  rcases eq_or_ne i j with h | h
  · subst h
    by_cases hi : i < l.length
    · simp [hi]
    · simp only [hi, and_false, if_neg, if_false, ite_true, Option.getD_none]
      rw [List.getElem?_eq_none (le_of_not_lt hi)]
      simp
  · simp [h]

lemma getD_replicate_zero (t j : ℕ) : (List.replicate t (0 : ℚ)).getD j 0 = 0 := by
  rw [List.getD_eq_getElem?_getD, List.getElem?_replicate]
  by_cases h : j < t <;> simp [h]

lemma getD_map_of_lt {α β : Type _} (f : α → β) (l : List α) (i : ℕ) (d : β) (d' : α)
    (h : i < l.length) : (l.map f).getD i d = f (l.getD i d') := by
  rw [List.getD_eq_getElem?_getD, List.getD_eq_getElem?_getD, List.getElem?_map,
    List.getElem?_eq_getElem h]
  simp

lemma getD_mem_of_lt {α : Type _} (l : List α) (i : ℕ) (d : α) (h : i < l.length) :
    l.getD i d ∈ l := by
  rw [List.getD_eq_getElem?_getD, List.getElem?_eq_getElem h]
  exact List.getElem_mem h

/-- Full characterization of the first-minimum search. -/
lemma argminIdx_spec :
    ∀ (l : List ℚ) (j : ℕ) (m : ℚ), argminIdx l = some (j, m) →
      j < l.length ∧ l.getD j 0 = m ∧ (∀ i, i < l.length → m ≤ l.getD i 0) ∧
        (∀ i, i < j → m < l.getD i 0) := by
  intro l
  induction l with
  | nil => intro j m h; simp [argminIdx] at h
  | cons x xs ih =>
    intro j m h
    unfold argminIdx at h
    rcases htail : argminIdx xs with _ | ⟨j', m'⟩
    · rw [htail] at h
      simp only [Option.some.injEq, Prod.mk.injEq] at h
      obtain ⟨hj, hm⟩ := h
      subst hj; subst hm
      have hxs : xs = [] := by
        cases hxs' : xs with
        | nil => rfl
        | cons y ys =>
          rw [hxs'] at htail
          unfold argminIdx at htail
          cases h' : argminIdx ys with
          | none => rw [h'] at htail; simp at htail
          | some q =>
            rw [h'] at htail
            obtain ⟨j2, m2⟩ := q
            dsimp only at htail
            split at htail <;> simp at htail
      subst hxs
      refine ⟨by simp, by simp, ?_, fun i hi => absurd hi (Nat.not_lt_zero i)⟩
      intro i hi
      simp only [List.length_cons, List.length_nil] at hi
      have hi0 : i = 0 := by omega
      subst hi0
      simp
    · rw [htail] at h
      obtain ⟨hj', hm', hall, hfirst⟩ := ih j' m' htail
      by_cases hle : x ≤ m'
      · simp only [hle, if_pos] at h
        simp only [Option.some.injEq, Prod.mk.injEq] at h
        obtain ⟨hj, hm⟩ := h
        subst hj; subst hm
        refine ⟨by simp, by simp, ?_, fun i hi => absurd hi (Nat.not_lt_zero i)⟩
        intro i hi
        cases i with
        | zero => simp
        | succ i' =>
          simp only [List.getD_cons_succ]
          have hi' : i' < xs.length := by
            simp only [List.length_cons] at hi
            omega
          exact le_trans hle (hall i' hi')
      · simp only [hle, if_neg, if_false] at h
        simp only [Option.some.injEq, Prod.mk.injEq] at h
        obtain ⟨hj, hm⟩ := h
        subst hm
        subst hj
        push_neg at hle
        refine ⟨by simpa using hj', by simpa using hm', ?_, ?_⟩
        · intro i hi
          cases i with
          | zero => simpa using le_of_lt hle
          | succ i' =>
            simp only [List.getD_cons_succ]
            refine hall i' ?_
            simp only [List.length_cons] at hi
            omega
        · intro i hi
          cases i with
          | zero => simpa using hle
          | succ i' =>
            simp only [List.getD_cons_succ]
            exact hfirst i' (by omega)

lemma argminIdx_isSome {l : List ℚ} (h : l ≠ []) : ∃ j m, argminIdx l = some (j, m) := by
  cases l with
  | nil => exact absurd rfl h
  | cons x xs =>
    unfold argminIdx
    cases htail : argminIdx xs with
    | none => exact ⟨0, x, rfl⟩
    | some p =>
      obtain ⟨j', m'⟩ := p
      by_cases hle : x ≤ m' <;> simp [hle]

/-- Full characterization of the first-maximum search. -/
lemma argmaxIdx_spec :
    ∀ (l : List ℚ) (j : ℕ) (m : ℚ), argmaxIdx l = some (j, m) →
      j < l.length ∧ l.getD j 0 = m ∧ (∀ i, i < l.length → l.getD i 0 ≤ m) ∧
        (∀ i, i < j → l.getD i 0 < m) := by
  intro l
  induction l with
  | nil => intro j m h; simp [argmaxIdx] at h
  | cons x xs ih =>
    intro j m h
    unfold argmaxIdx at h
    rcases htail : argmaxIdx xs with _ | ⟨j', m'⟩
    · rw [htail] at h
      simp only [Option.some.injEq, Prod.mk.injEq] at h
      obtain ⟨hj, hm⟩ := h
      subst hj; subst hm
      have hxs : xs = [] := by
        cases hxs' : xs with
        | nil => rfl
        | cons y ys =>
          rw [hxs'] at htail
          unfold argmaxIdx at htail
          cases h' : argmaxIdx ys with
          | none => rw [h'] at htail; simp at htail
          | some q =>
            rw [h'] at htail
            obtain ⟨j2, m2⟩ := q
            dsimp only at htail
            split at htail <;> simp at htail
      subst hxs
      refine ⟨by simp, by simp, ?_, fun i hi => absurd hi (Nat.not_lt_zero i)⟩
      intro i hi
      simp only [List.length_cons, List.length_nil] at hi
      have hi0 : i = 0 := by omega
      subst hi0
      simp
    · rw [htail] at h
      obtain ⟨hj', hm', hall, hfirst⟩ := ih j' m' htail
      by_cases hle : m' ≤ x
      · simp only [hle, if_pos] at h
        simp only [Option.some.injEq, Prod.mk.injEq] at h
        obtain ⟨hj, hm⟩ := h
        subst hj; subst hm
        refine ⟨by simp, by simp, ?_, fun i hi => absurd hi (Nat.not_lt_zero i)⟩
        intro i hi
        cases i with
        | zero => simp
        | succ i' =>
          simp only [List.getD_cons_succ]
          have hi' : i' < xs.length := by
            simp only [List.length_cons] at hi
            omega
          exact le_trans (hall i' hi') hle
      · simp only [hle, if_neg, if_false] at h
        simp only [Option.some.injEq, Prod.mk.injEq] at h
        obtain ⟨hj, hm⟩ := h
        subst hm
        subst hj
        push_neg at hle
        refine ⟨by simpa using hj', by simpa using hm', ?_, ?_⟩
        · intro i hi
          cases i with
          | zero => simpa using le_of_lt hle
          | succ i' =>
            simp only [List.getD_cons_succ]
            refine hall i' ?_
            simp only [List.length_cons] at hi
            omega
        · intro i hi
          cases i with
          | zero => simpa using hle
          | succ i' =>
            simp only [List.getD_cons_succ]
            exact hfirst i' (by omega)

lemma argmaxIdx_isSome {l : List ℚ} (h : l ≠ []) : ∃ j m, argmaxIdx l = some (j, m) := by
  cases l with
  | nil => exact absurd rfl h
  | cons x xs =>
    unfold argmaxIdx
    cases htail : argmaxIdx xs with
    | none => exact ⟨0, x, rfl⟩
    | some p =>
      obtain ⟨j', m'⟩ := p
      by_cases hle : m' ≤ x <;> simp [hle]

/-- The index returned by `_find_closest_idx` is in range, its difference is
strictly inside the tolerance, it is a global minimizer of the difference,
and it is the first such minimizer. -/
lemma findClosestIdx_spec {arr : List ℚ} {target tol : ℚ} {j : ℕ}
    (h : findClosestIdx arr target tol = some j) :
    j < arr.length ∧ |arr.getD j 0 - target| < tol ∧
      (∀ i, i < arr.length → |arr.getD j 0 - target| ≤ |arr.getD i 0 - target|) ∧
      (∀ i, i < j → |arr.getD j 0 - target| < |arr.getD i 0 - target|) := by
  unfold findClosestIdx at h
  rcases hmin : argminIdx (arr.map (fun x => |x - target|)) with _ | ⟨j', d⟩
  · rw [hmin] at h; simp at h
  · rw [hmin] at h
    by_cases hd : d < tol
    · simp only [hd, if_pos, Option.some.injEq] at h
      subst h
      obtain ⟨hj, hval, hall, hfirst⟩ := argminIdx_spec _ _ _ hmin
      rw [List.length_map] at hj
      have hmap : ∀ i, i < arr.length →
          (arr.map (fun x => |x - target|)).getD i 0 = |arr.getD i 0 - target| := by
        intro i hi
        exact getD_map_of_lt (fun x => |x - target|) arr i 0 0 hi
      rw [hmap j' hj] at hval
      refine ⟨hj, by rw [hval]; exact hd, ?_, ?_⟩
      · intro i hi
        rw [hval]
        have := hall i (by simpa using hi)
        rwa [hmap i hi] at this
      · intro i hi
        rw [hval]
        have := hfirst i hi
        rwa [hmap i (lt_trans hi hj)] at this
    · simp [hd] at h

/-- C9 (amended): for every ScanArray whose retention-time array has
pairwise-distinct entries — in particular every built array without
duplicate retention times — converting the retention time stored at scan `k`
back to a scan number via `rt_to_scan_num` returns `k` (the first-minimum
tie-break of `np.argmin` picks the unique zero difference).  The original
claim fails for built arrays with duplicated retention times, see the
counterexample. -/
theorem C9_rt_roundtrip_on_distinct (A : ScanArray) (k : ℕ)
    (hk : k < A.rtArr.length)
    (hd : List.Pairwise (fun a b => a ≠ b) A.rtArr) :
    rtToScanNum A (A.rtArr.getD k 0) = k := by
  unfold rtToScanNum argminIdxD
  set rt := A.rtArr.getD k 0 with hrt
  set l := A.rtArr.map (fun x => |x - rt|) with hl
  have hnil : l ≠ [] := by
    rw [hl]
    intro hmap
    rw [List.map_eq_nil_iff] at hmap
    rw [hmap] at hk
    simp at hk
  obtain ⟨j, m, hjm⟩ := argminIdx_isSome hnil
  rw [hjm]
  obtain ⟨hj, hval, hall, _⟩ := argminIdx_spec _ _ _ hjm
  have hlen : l.length = A.rtArr.length := by rw [hl]; simp
  have hmap : ∀ i, i < A.rtArr.length → l.getD i 0 = |A.rtArr.getD i 0 - rt| := by
    intro i hi
    rw [hl]
    exact getD_map_of_lt (fun x => |x - rt|) A.rtArr i 0 0 hi
  have hk0 : l.getD k 0 = 0 := by
    rw [hmap k hk, ← hrt]
    simp
  have hjlt : j < A.rtArr.length := hlen ▸ hj
  have hm0 : m = 0 := by
    have h1 : m ≤ 0 := hk0 ▸ hall k (hlen ▸ hk)
    have h2 : 0 ≤ m := by
      rw [← hval, hmap j hjlt]
      exact abs_nonneg _
    exact le_antisymm h1 h2
  have hjk : A.rtArr.getD j 0 = A.rtArr.getD k 0 := by
    have : |A.rtArr.getD j 0 - rt| = 0 := by
      rw [← hmap j hjlt, hval, hm0]
    rw [abs_eq_zero, sub_eq_zero] at this
    rw [this, hrt]
  by_contra hne
  rw [List.pairwise_iff_getElem] at hd
  have key : ∀ i1 i2 (h1 : i1 < A.rtArr.length) (h2 : i2 < A.rtArr.length), i1 < i2 →
      A.rtArr.getD i1 0 ≠ A.rtArr.getD i2 0 := by
    intro i1 i2 h1 h2 hlt
    have hne12 := hd i1 i2 h1 h2 hlt
    rw [List.getD_eq_getElem?_getD, List.getD_eq_getElem?_getD,
      List.getElem?_eq_getElem h1, List.getElem?_eq_getElem h2]
    simpa using hne12
  rcases lt_or_gt_of_ne hne with hlt | hgt
  · exact key j k hjlt hk hlt hjk
  · exact key k j hk hjlt hgt hjk.symm

/-- Witness for C9: the array `a8` has distinct retention times `[1, 2, 3]`
and scan `1` round-trips. -/
theorem C9_witness :
    1 < a8.rtArr.length ∧ List.Pairwise (fun a b => a ≠ b) a8.rtArr ∧
      rtToScanNum a8 (a8.rtArr.getD 1 0) = 1 :=
  ⟨by norm_num [a8], by norm_num [a8], C9_rt_roundtrip_on_distinct a8 1 (by norm_num [a8])
    (by norm_num [a8])⟩

/-- C9 counterexample: the claim as stated fails on a built SparseScanArray.
Building from `demoSpectra` (scans 2 and 3 carry a single signal each, so
the tracker skips them and their retention-time slots remain `0`) yields
`rt_arr = [1, 0, 0]`; converting the retention time stored at scan `2`
(namely `0`) returns scan `1`, not `2`. -/
theorem C9_counterexample :
    (buildScanArray demoSpectra 1 1 0 none 0).map
      (fun A => (A.rtArr, rtToScanNum A (A.rtArr.getD 2 0))) = some ([1, 0, 0], 1) ∧
      (1 : ℕ) ≠ 2 := by
  constructor
  · norm_num [demoSpectra, buildScanArray, buildFeaturesMasscube, initFeatures, newFeature,
      frameStep, filterPeaks, List.insertionSort, List.orderedInsert, meanNonzeroMz,
      nonzeroMzs, listMean, List.enumFrom, npMax, rtToScanNum, argminIdxD, argminIdx,
      List.range, List.range.loop, List.replicate]
  · decide

lemma getD_replicate_of_lt {α : Type _} (n j : ℕ) (a d : α) (h : j < n) :
    (List.replicate n a).getD j d = a := by
  rw [List.getD_eq_getElem?_getD, List.getElem?_replicate]
  simp [h]

lemma matchFeature_eq_some {specMz : List ℚ} {tol : ℚ} {avail : List Bool}
    {target : ℚ} {j : ℕ} :
    matchFeature specMz tol avail target = some j ↔
      findClosestIdx specMz target tol = some j ∧ avail.getD j false = true := by
  unfold matchFeature
  cases hf : findClosestIdx specMz target tol with
  | none => simp
  | some j1 =>
    dsimp only
    by_cases ha : avail.getD j1 false
    · simp only [ha, if_pos, Option.some.injEq]
      constructor
      · intro h
        subst h
        exact ⟨rfl, ha⟩
      · intro h
        exact h.1
    · simp only [ha, Bool.false_eq_true, if_false, Option.some.injEq]
      constructor
      · intro h
        simp at h
      · intro ⟨h, hj⟩
        subst h
        exact absurd hj ha

/-- Characterization of the per-frame greedy matching: feature `i` is
assigned signal `j` iff `j` is the overall-closest signal to feature `i`'s
latest mass (strictly within tolerance) and `j` is still available, where
availability is exactly "not assigned to any earlier feature". -/
lemma processWip_assign (specMz specIntsy : List ℚ) (rt : ℚ) (n : ℕ) (tol : ℚ) (g : ℕ) :
    ∀ (fs : List Feature) (avail : List Bool), avail.length = specMz.length →
      ∀ i j : ℕ,
        ((processWip specMz specIntsy rt n tol g fs avail).1.map
            (fun x => x.2)).getD i none = some j ↔
          (i < fs.length ∧
            findClosestIdx specMz (latestMz (fs.getD i dfltFeature)) tol = some j ∧
            avail.getD j false = true ∧
            ∀ i', i' < i →
              ((processWip specMz specIntsy rt n tol g fs avail).1.map
                  (fun x => x.2)).getD i' none ≠ some j) := by
  intro fs
  induction fs with
  | nil =>
    intro avail _ i j
    simp [processWip]
  | cons f fs ih =>
    intro avail hlen i j
    rcases hm : matchFeature specMz tol avail (latestMz f) with _ | j0
    · -- unmatched head: gap increment, availability unchanged
      have hexp : (processWip specMz specIntsy rt n tol g (f :: fs) avail).1.map
          (fun x => x.2) =
          none :: ((processWip specMz specIntsy rt n tol g fs avail).1.map
            (fun x => x.2)) := by
        simp only [processWip, hm, List.map_cons]
      rw [hexp]
      cases i with
      | zero =>
        simp only [List.getD_cons_zero]
        constructor
        · intro h
          simp at h
        · intro ⟨_, hfind, hav, _⟩
          exfalso
          have : matchFeature specMz tol avail (latestMz f) = some j := by
            rw [matchFeature_eq_some]
            exact ⟨by simpa using hfind, hav⟩
          rw [hm] at this
          simp at this
      | succ i' =>
        simp only [List.getD_cons_succ, List.length_cons, Nat.succ_lt_succ_iff,
          List.getD_cons_succ]
        rw [ih avail hlen i' j]
        constructor
        · intro ⟨h1, h2, h3, h4⟩
          refine ⟨h1, by simpa using h2, h3, ?_⟩
          intro i2 hi2
          cases i2 with
          | zero => simp
          | succ i2' =>
            simp only [List.getD_cons_succ]
            exact h4 i2' (by omega)
        · intro ⟨h1, h2, h3, h4⟩
          refine ⟨h1, by simpa using h2, h3, ?_⟩
          intro i2 hi2
          have := h4 (i2 + 1) (by omega)
          simpa using this
    · -- matched head: signal j0 claimed, availability loses j0
      have hj0 : findClosestIdx specMz (latestMz f) tol = some j0 ∧
          avail.getD j0 false = true := matchFeature_eq_some.mp hm
      have hj0lt : j0 < specMz.length := (findClosestIdx_spec hj0.1).1
      have hexp : (processWip specMz specIntsy rt n tol g (f :: fs) avail).1.map
          (fun x => x.2) =
          some j0 :: ((processWip specMz specIntsy rt n tol g fs
            (avail.set j0 false)).1.map (fun x => x.2)) := by
        simp only [processWip, hm, List.map_cons]
      rw [hexp]
      cases i with
      | zero =>
        simp only [List.getD_cons_zero, Option.some.injEq]
        constructor
        · intro h
          subst h
          exact ⟨by simp, by simpa using hj0.1, hj0.2, fun i' hi' => absurd hi' (by omega)⟩
        · intro ⟨_, hfind, _, _⟩
          have : some j0 = some j := by
            rw [← hj0.1]
            simpa using hfind
          simpa using this
      | succ i' =>
        simp only [List.getD_cons_succ, List.length_cons, Nat.succ_lt_succ_iff]
        rw [ih (avail.set j0 false) (by rw [List.length_set]; exact hlen) i' j]
        have hset : (avail.set j0 false).getD j false = true ↔
            (j0 = j → False) ∧ avail.getD j false = true := by
          rw [getD_set_iff]
          by_cases hjj : j0 = j
          · subst hjj
            simp [hlen ▸ hj0lt]
          · simp [hjj]
        rw [hset]
        constructor
        · intro ⟨h1, h2, ⟨h3a, h3b⟩, h4⟩
          refine ⟨h1, by simpa using h2, h3b, ?_⟩
          intro i2 hi2
          cases i2 with
          | zero =>
            simp only [List.getD_cons_zero, Option.some.injEq]
            intro hh
            exact h3a (Option.some.inj hh)
          | succ i2' =>
            simp only [List.getD_cons_succ]
            exact h4 i2' (by omega)
        · intro ⟨h1, h2, h3, h4⟩
          have h0 : (j0 = j → False) := by
            intro hh
            exact (h4 0 (by omega)) (by simp [hh])
          refine ⟨h1, by simpa using h2, ⟨h0, h3⟩, ?_⟩
          intro i2 hi2
          have := h4 (i2 + 1) (by omega)
          simpa using this

/-- C1 (amended): in the tracker's per-frame matching step, active feature
`i` is assigned signal `j` iff `j` is the overall-closest incoming signal
(among all signals, claimed or not, with `np.argmin`'s first-minimum
tie-break) to the feature's most-recently-assigned mass, the absolute mass
difference is strictly below `mass_tolerance`, and `j` has not been claimed
by an earlier feature of the same frame.  In particular a feature whose
overall-closest signal was already claimed goes unmatched even when another
unclaimed signal lies strictly within tolerance — the original claim's
"closest available signal" reading fails, see the counterexample. -/
theorem C1_frame_matching (specMz specIntsy : List ℚ) (rt : ℚ) (n : ℕ)
    (tol : ℚ) (g : ℕ) (fs : List Feature) (i j : ℕ) :
    ((processWip specMz specIntsy rt n tol g fs
        (List.replicate specMz.length true)).1.map (fun x => x.2)).getD i none = some j ↔
      (i < fs.length ∧
        findClosestIdx specMz (latestMz (fs.getD i dfltFeature)) tol = some j ∧
        ∀ i', i' < i →
          ((processWip specMz specIntsy rt n tol g fs
              (List.replicate specMz.length true)).1.map (fun x => x.2)).getD i' none ≠
            some j) := by
  rw [processWip_assign specMz specIntsy rt n tol g fs
    (List.replicate specMz.length true) (by simp) i j]
  constructor
  · intro ⟨h1, h2, _, h4⟩
    exact ⟨h1, h2, h4⟩
  · intro ⟨h1, h2, h4⟩
    exact ⟨h1, h2, getD_replicate_of_lt _ _ _ _ (findClosestIdx_spec h2).1, h4⟩

/-- Witness for C1: in the two-feature frame of the counterexample, feature
`0` is assigned signal `0`, which is the closest signal to its latest mass
and unclaimed. -/
theorem C1_witness :
    ((processWip [10, 11] [5, 5] 7 1 2 0 [c1Feature, c1Feature]
        (List.replicate 2 true)).1.map (fun x => x.2)).getD 0 none = some 0 :=
  (C1_frame_matching [10, 11] [5, 5] 7 1 2 0 [c1Feature, c1Feature] 0 0).mpr
    ⟨by norm_num,
     by norm_num [c1Feature, latestMz, latestIdx, dfltFeature, findClosestIdx, argminIdx,
       List.range, List.range.loop],
     fun i' hi' => absurd hi' (by omega)⟩

/-- C1 counterexample: two active features share the latest mass `10`; the
incoming signals are `[10, 11]` with tolerance `2`.  Feature `0` claims
signal `0`; feature `1`'s overall-closest signal is the already-claimed
signal `0`, so it is left unmatched (`none`) although the unclaimed signal
`1` (mass `11`) lies strictly within the tolerance of its latest mass —
refuting "if any still-unclaimed signal lies strictly within mass_tolerance,
the closest such available signal is assigned". -/
theorem C1_counterexample :
    ((processWip [10, 11] [5, 5] 7 1 2 0 [c1Feature, c1Feature]
        (List.replicate 2 true)).1.map (fun x => x.2)) = [some 0, none] ∧
      |(11 : ℚ) - latestMz c1Feature| < 2 := by
  constructor
  · norm_num [processWip, matchFeature, findClosestIdx, argminIdx, latestMz, latestIdx,
      c1Feature, applyMatch, List.replicate, List.range, List.range.loop]
  · norm_num [latestMz, latestIdx, c1Feature, List.range, List.range.loop]

/-- C3: a FeaturePointer whose recorded identity is array `A`'s, resolved
against any array `B` of different identity (shape plays no role), fails
every read operation — m/z values, intensity values, retention times,
chromatogram, max intensity — with the identity-mismatch error; validation
against `A` itself passes. -/
theorem C3_identity_validation (p : FeaturePointer) (A B : ScanArray)
    (hA : p.sourceArrayUuid = A.uuid) (hB : B.uuid ≠ A.uuid) :
    getMzValues p B = Except.error ReadError.uuidMismatch ∧
      getIntensityValues p B = Except.error ReadError.uuidMismatch ∧
      getRetentionTimes p B = Except.error ReadError.uuidMismatch ∧
      getChromArray p B = Except.error ReadError.uuidMismatch ∧
      getMaxIntsy p B = Except.error ReadError.uuidMismatch ∧
      validateSource p A = Except.ok () := by
  have hne : B.uuid ≠ p.sourceArrayUuid := by rw [hA]; exact hB
  have hvB : validateSource p B = Except.error ReadError.uuidMismatch := by
    unfold validateSource
    simp [hne]
  have h1 : getMzValues p B = Except.error ReadError.uuidMismatch := by
    unfold getMzValues
    rw [hvB]
  have h2 : getIntensityValues p B = Except.error ReadError.uuidMismatch := by
    unfold getIntensityValues
    rw [hvB]
  have h3 : getRetentionTimes p B = Except.error ReadError.uuidMismatch := by
    unfold getRetentionTimes
    rw [hvB]
  have h4 : getChromArray p B = Except.error ReadError.uuidMismatch := by
    unfold getChromArray
    rw [h3]
  have h5 : getMaxIntsy p B = Except.error ReadError.uuidMismatch := by
    unfold getMaxIntsy
    rw [h2]
  refine ⟨h1, h2, h3, h4, h5, ?_⟩
  unfold validateSource
  simp [hA]

/-- Witness for C3: the pointer `wP` built from `wA` errors against the
equal-shaped, equal-content array `wB` (different identity) and validates
against `wA`. -/
theorem C3_witness :
    wP.sourceArrayUuid = wA.uuid ∧ wB.uuid ≠ wA.uuid ∧
      getMzValues wP wB = Except.error ReadError.uuidMismatch ∧
      validateSource wP wA = Except.ok () :=
  ⟨rfl, by decide, (C3_identity_validation wP wA wB rfl (by decide)).1,
    (C3_identity_validation wP wA wB rfl (by decide)).2.2.2.2.2⟩

lemma pySlice_length {α : Type _} (l : List α) (a b : ℕ) (hab : a ≤ b)
    (hb : b ≤ l.length) : (pySlice l a b).length = b - a := by
  unfold pySlice
  rw [List.length_take, List.length_drop]
  omega

lemma pySlice_getD {α : Type _} (l : List α) (a b j : ℕ) (d : α) (hj : j < b - a)
    (_hb : b ≤ l.length) : (pySlice l a b).getD j d = l.getD (a + j) d := by
  unfold pySlice
  rw [List.getD_eq_getElem?_getD, List.getD_eq_getElem?_getD, List.getElem?_take,
    if_pos hj, List.getElem?_drop]

/-- C10: every resolved series of a FeaturePointer is the half-open slice
`[scan_start, scan_end)`: its length is `scan_end - scan_start`, entry `j`
is the owning row's cell at scan `scan_start + j` (so the last scan index is
never included), the chromatogram pairs the retention-time and intensity
series, and a pointer whose window is a single scan resolves to the empty
series. -/
theorem C10_halfopen_series (p : FeaturePointer) (A : ScanArray)
    (hu : A.uuid = p.sourceArrayUuid)
    (hmz : (A.mzArr.getD p.mzLaneIdx []).length = A.rtArr.length)
    (hin : (A.intsyArr.getD p.mzLaneIdx []).length = A.rtArr.length)
    (hse : scanEnd p ≤ A.rtArr.length)
    (hss : scanStart p ≤ scanEnd p) :
    ∃ mzs ins rts,
      getMzValues p A = Except.ok mzs ∧
      getIntensityValues p A = Except.ok ins ∧
      getRetentionTimes p A = Except.ok rts ∧
      getChromArray p A = Except.ok (rts.zip ins) ∧
      mzs.length = scanEnd p - scanStart p ∧
      ins.length = scanEnd p - scanStart p ∧
      rts.length = scanEnd p - scanStart p ∧
      (∀ j, j < scanEnd p - scanStart p →
        mzs.getD j 0 = (A.mzArr.getD p.mzLaneIdx []).getD (scanStart p + j) 0 ∧
        ins.getD j 0 = (A.intsyArr.getD p.mzLaneIdx []).getD (scanStart p + j) 0 ∧
        rts.getD j 0 = A.rtArr.getD (scanStart p + j) 0) ∧
      (scanStart p = scanEnd p → mzs = []) := by
  have hv : validateSource p A = Except.ok () := by
    unfold validateSource
    simp [hu]
  have hmzv : getMzValues p A =
      Except.ok (pySlice (A.mzArr.getD p.mzLaneIdx []) (scanStart p) (scanEnd p)) := by
    unfold getMzValues
    rw [hv]
  have hinv : getIntensityValues p A =
      Except.ok (pySlice (A.intsyArr.getD p.mzLaneIdx []) (scanStart p) (scanEnd p)) := by
    unfold getIntensityValues
    rw [hv]
  have hrtv : getRetentionTimes p A =
      Except.ok (pySlice A.rtArr (scanStart p) (scanEnd p)) := by
    unfold getRetentionTimes
    rw [hv]
  refine ⟨_, _, _, hmzv, hinv, hrtv, ?_, ?_, ?_, ?_, ?_, ?_⟩
  · unfold getChromArray
    rw [hrtv, hinv]
  · exact pySlice_length _ _ _ hss (hmz ▸ hse)
  · exact pySlice_length _ _ _ hss (hin ▸ hse)
  · exact pySlice_length _ _ _ hss hse
  · intro j hj
    exact ⟨pySlice_getD _ _ _ _ _ hj (hmz ▸ hse), pySlice_getD _ _ _ _ _ hj (hin ▸ hse),
      pySlice_getD _ _ _ _ _ hj hse⟩
  · intro heq
    have := pySlice_length (A.mzArr.getD p.mzLaneIdx []) (scanStart p) (scanEnd p)
      hss (hmz ▸ hse)
    rw [heq] at this
    simp only [Nat.sub_self] at this
    exact List.length_eq_zero.mp (by rw [heq]; exact this)

/-- Witness for C10: the pointer `p8` into `a8` (window `[0, 2)` from scan
set `{0, 1, 2}`) resolves to two-element series. -/
theorem C10_witness :
    a8.uuid = p8.sourceArrayUuid ∧
      ∃ mzs ins rts,
        getMzValues p8 a8 = Except.ok mzs ∧
        getIntensityValues p8 a8 = Except.ok ins ∧
        getRetentionTimes p8 a8 = Except.ok rts ∧
        getChromArray p8 a8 = Except.ok (rts.zip ins) ∧
        mzs.length = scanEnd p8 - scanStart p8 ∧
        ins.length = scanEnd p8 - scanStart p8 ∧
        rts.length = scanEnd p8 - scanStart p8 ∧
        (∀ j, j < scanEnd p8 - scanStart p8 →
          mzs.getD j 0 = (a8.mzArr.getD p8.mzLaneIdx []).getD (scanStart p8 + j) 0 ∧
          ins.getD j 0 = (a8.intsyArr.getD p8.mzLaneIdx []).getD (scanStart p8 + j) 0 ∧
          rts.getD j 0 = a8.rtArr.getD (scanStart p8 + j) 0) ∧
        (scanStart p8 = scanEnd p8 → mzs = []) :=
  ⟨rfl, C10_halfopen_series p8 a8 rfl (by decide) (by decide) (by decide) (by decide)⟩

/-- C7 (code bug): `get_bpc` guards the restricted maximum with
`match_arr.any()`, the NumPy truthiness of the matched *index* array, while
its own comment reads "If this subset exists".  When the set of in-range
lanes is exactly `{0}`, the index array `[0]` is falsy, so the query returns
the all-zeros series instead of lane 0's intensities: on `a7` (lane labels
400.5 and 500) the range `[400, 401]` matches exactly lane 0, the
column-wise maximum over that lane set is `[7, 3]`, yet `get_bpc` returns
`[0, 0]`. -/
theorem C7_bpc_truthiness_bug :
    matchedLanes a7 400 401 = [0] ∧
      (List.range a7.rtArr.length).map (fun j => colMaxLanes a7 [0] j) = [7, 3] ∧
      getBpc a7 (some (400, 401)) = [0, 0] ∧
      ([0, 0] : List ℚ) ≠ [7, 3] := by
  refine ⟨?_, ?_, ?_, by norm_num⟩
  · norm_num [matchedLanes, mzLaneLabel, argmaxIdxD, argmaxIdx, a7, List.range,
      List.range.loop]
  · norm_num [colMaxLanes, npMax, a7, List.range, List.range.loop]
  · norm_num [getBpc, matchedLanes, mzLaneLabel, argmaxIdxD, argmaxIdx, idxArrAny, a7,
      List.range, List.range.loop, List.replicate]

/-- C6 (amended): tracking initialization creates exactly one Feature per
mass/intensity pair of the first frame, recording that pair at scan slot 0 —
with no `min_intensity` filtering applied to the first frame (the filter is
applied from the second frame on only; the original claim's "after
discarding pairs below min_intensity" fails, see the counterexample).  In
particular a single-frame build yields one finalized Feature per first-frame
pair whatever `min_intensity` is. -/
theorem C6_first_frame_init (total : ℕ) (s : Spectrum) (tol : ℚ) (gapTol : ℕ)
    (minIntsy : ℚ) :
    (initFeatures total s).length = s.peaks.length ∧
      (∀ k, k < s.peaks.length →
        (initFeatures total s).getD k dfltFeature =
          newFeature total 0 (s.peaks.getD k dfltPeak).mz (s.peaks.getD k dfltPeak).intsy
            s.rt) ∧
      (buildFeaturesMasscube [s] tol gapTol minIntsy).length = s.peaks.length := by
  refine ⟨by simp [initFeatures], ?_, ?_⟩
  · intro k hk
    unfold initFeatures
    rw [getD_map_of_lt _ _ k dfltFeature dfltPeak hk]
  · unfold buildFeaturesMasscube
    simp [List.length_insertionSort, initFeatures, List.enumFrom]

/-- Witness for C6: a first frame holding the single pair `(5, 1/2)` with
`min_intensity = 1` still initializes one Feature. -/
theorem C6_witness :
    (initFeatures 1 { peaks := [{ mz := 5, intsy := 1/2 }], rt := 0 }).length =
        ([{ mz := 5, intsy := 1/2 }] : List Peak).length ∧
      (∀ k, k < ([{ mz := 5, intsy := 1/2 }] : List Peak).length →
        (initFeatures 1 { peaks := [{ mz := 5, intsy := 1/2 }], rt := 0 }).getD k
            dfltFeature =
          newFeature 1 0 (([{ mz := 5, intsy := 1/2 }] : List Peak).getD k dfltPeak).mz
            (([{ mz := 5, intsy := 1/2 }] : List Peak).getD k dfltPeak).intsy 0) ∧
      (buildFeaturesMasscube [{ peaks := [{ mz := 5, intsy := 1/2 }], rt := 0 }] 1 1
          1).length = ([{ mz := 5, intsy := 1/2 }] : List Peak).length :=
  C6_first_frame_init 1 { peaks := [{ mz := 5, intsy := 1/2 }], rt := 0 } 1 1 1

/-- C6 counterexample: with `min_intensity = 1`, the single first-frame pair
`(mass 5, intensity 1/2)` has intensity strictly below the threshold, yet
the build still creates a Feature from it (the claim says no Feature may be
initialized from a signal below `min_intensity`). -/
theorem C6_counterexample :
    buildFeaturesMasscube [{ peaks := [{ mz := 5, intsy := 1/2 }], rt := 0 }] 1 1 1 =
        [{ mzArr := [5], intsyArr := [1/2], rtArr := [0], gapCounter := 0 }] ∧
      (1/2 : ℚ) < 1 := by
  constructor
  · norm_num [buildFeaturesMasscube, initFeatures, newFeature, List.insertionSort,
      List.orderedInsert, List.enumFrom]
  · norm_num

lemma exceptMap_ok_length {α β ε : Type _} (f : α → Except ε β) :
    ∀ (l : List α) (ys : List β), exceptMap f l = Except.ok ys → ys.length = l.length := by
  intro l
  induction l with
  | nil =>
    intro ys h
    unfold exceptMap at h
    simp only [Except.ok.injEq] at h
    subst h
    rfl
  | cons x xs ih =>
    intro ys h
    unfold exceptMap at h
    cases hx : f x with
    | error e => rw [hx] at h; simp at h
    | ok y =>
      rw [hx] at h
      cases hxs : exceptMap f xs with
      | error e => rw [hxs] at h; simp at h
      | ok ys' =>
        rw [hxs] at h
        simp only [Except.ok.injEq] at h
        subst h
        simp [ih ys' hxs]

lemma exceptMap_ok_getD {α β ε : Type _} (f : α → Except ε β) (da : α) (db : β) :
    ∀ (l : List α) (ys : List β), exceptMap f l = Except.ok ys →
      ∀ k, k < l.length → f (l.getD k da) = Except.ok (ys.getD k db) := by
  intro l
  induction l with
  | nil => intro ys _ k hk; simp at hk
  | cons x xs ih =>
    intro ys h k hk
    unfold exceptMap at h
    cases hx : f x with
    | error e => rw [hx] at h; simp at h
    | ok y =>
      rw [hx] at h
      cases hxs : exceptMap f xs with
      | error e => rw [hxs] at h; simp at h
      | ok ys' =>
        rw [hxs] at h
        simp only [Except.ok.injEq] at h
        subst h
        cases k with
        | zero => simpa using hx
        | succ k' =>
          simp only [List.getD_cons_succ]
          exact ih ys' hxs k' (by simpa using hk)

/-- C8 (amended): when the Ensemble's base attributes are computed, the base
cofeature index is the `np.argmax` (first maximum) of the primary-list
pointers' apex intensities — it attains the maximum apex intensity and every
earlier pointer is strictly less intense — and the stored base apex mass is
the mean of the base pointer's resolved mass series taken over ALL scans of
its half-open window, zeros at unpopulated scans included (the original
claim's "mean across populated scans only" fails, see the counterexample). -/
theorem C8_base_feature (ms1 : List FeaturePointer) (A : ScanArray) (bi : ℕ) (bm : ℚ)
    (h : populateBase ms1 A = Except.ok (bi, bm)) :
    ∃ intsys, exceptMap (fun p => getMaxIntsy p A) ms1 = Except.ok intsys ∧
      intsys.length = ms1.length ∧ bi < ms1.length ∧
      (∀ k, k < ms1.length → intsys.getD k 0 ≤ intsys.getD bi 0) ∧
      (∀ k, k < bi → intsys.getD k 0 < intsys.getD bi 0) ∧
      ∀ mzs, getMzValues (ms1.getD bi dfltPtr) A = Except.ok mzs → bm = listMean mzs := by
  unfold populateBase at h
  cases hm : exceptMap (fun p => getMaxIntsy p A) ms1 with
  | error e => rw [hm] at h; simp at h
  | ok intsys =>
    rw [hm] at h
    cases intsys with
    | nil => simp at h
    | cons y ys =>
      dsimp only at h
      cases hz : getMzValues (ms1.getD (argmaxIdxD (y :: ys)) dfltPtr) A with
      | error e => rw [hz] at h; simp at h
      | ok mzs =>
        rw [hz] at h
        simp only [Except.ok.injEq, Prod.mk.injEq] at h
        obtain ⟨hbi, hbm⟩ := h
        obtain ⟨j, m, hjm⟩ := argmaxIdx_isSome (l := y :: ys) (by simp)
        have hbij : bi = j := by rw [← hbi]; unfold argmaxIdxD; rw [hjm]
        obtain ⟨hj, hval, hall, hfirst⟩ := argmaxIdx_spec _ _ _ hjm
        have hlen : (y :: ys).length = ms1.length :=
          exceptMap_ok_length _ ms1 (y :: ys) hm
        refine ⟨y :: ys, rfl, hlen, by omega, ?_, ?_, ?_⟩
        · intro k hk
          rw [hbij, hval]
          exact hall k (by omega)
        · intro k hk
          rw [hbij, hval]
          exact hfirst k (by omega)
        · intro mzs' hmzs'
          have : bi = argmaxIdxD (y :: ys) := hbi.symm
          rw [← this] at hz
          rw [hz] at hmzs'
          simp only [Except.ok.injEq] at hmzs'
          rw [← hmzs', ← hbm]

/-- C8 counterexample: the base pointer `p8` over `a8` resolves to the mass
series `[100, 0]` (scan 1 unpopulated).  The code stores the dense mean
`(100 + 0) / 2 = 50`, whereas the mean across populated scans only is `100`;
the stored base apex mass is therefore not the populated-scans mean claimed. -/
theorem C8_counterexample :
    populateBase [p8] a8 = Except.ok (0, 50) ∧
      getMzValues p8 a8 = Except.ok [100, 0] ∧
      specPopulatedMean [100, 0] = 100 ∧ (50 : ℚ) ≠ 100 := by
  refine ⟨?_, ?_, ?_, by norm_num⟩
  · norm_num [populateBase, exceptMap, getMaxIntsy, getIntensityValues, getMzValues,
      validateSource, p8, a8, pySlice, scanStart, scanEnd, npMax, argmaxIdxD, argmaxIdx,
      listMean, dfltPtr]
  · norm_num [getMzValues, validateSource, p8, a8, pySlice, scanStart, scanEnd]
  · norm_num [specPopulatedMean, listMean]

/-- Witness for C8: the single-pointer ensemble over `a8` has base index `0`
and base mass `50`, and the theorem's characterization holds there. -/
theorem C8_witness :
    ∃ intsys, exceptMap (fun p => getMaxIntsy p a8) [p8] = Except.ok intsys ∧
      intsys.length = [p8].length ∧ 0 < [p8].length ∧
      (∀ k, k < [p8].length → intsys.getD k 0 ≤ intsys.getD 0 0) ∧
      (∀ k, k < 0 → intsys.getD k 0 < intsys.getD 0 0) ∧
      ∀ mzs, getMzValues ([p8].getD 0 dfltPtr) a8 = Except.ok mzs → 50 = listMean mzs :=
  C8_base_feature [p8] a8 0 50 (by
    norm_num [populateBase, exceptMap, getMaxIntsy, getIntensityValues, getMzValues,
      validateSource, p8, a8, pySlice, scanStart, scanEnd, npMax, argmaxIdxD, argmaxIdx,
      listMean, dfltPtr])

lemma foldl_max_le_nat : ∀ (xs : List ℕ) (a : ℕ),
    a ≤ xs.foldl max a ∧ ∀ x ∈ xs, x ≤ xs.foldl max a := by
  intro xs
  induction xs with
  | nil => intro a; exact ⟨le_refl a, by simp⟩
  | cons y ys ih =>
    intro a
    simp only [List.foldl_cons]
    obtain ⟨h1, h2⟩ := ih (max a y)
    refine ⟨le_trans (le_max_left a y) h1, ?_⟩
    intro x hx
    rcases List.mem_cons.mp hx with hh | ht
    · subst hh
      exact le_trans (le_max_right a x) h1
    · exact h2 x ht

lemma foldl_max_mem_nat : ∀ (xs : List ℕ) (a : ℕ), xs.foldl max a ∈ a :: xs := by
  intro xs
  induction xs with
  | nil => intro a; simp
  | cons y ys ih =>
    intro a
    simp only [List.foldl_cons]
    rcases List.mem_cons.mp (ih (max a y)) with hh | ht
    · rcases max_choice a y with hc | hc <;> rw [hc] at hh ⊢ <;> simp [hh]
    · simp [ht]

lemma foldl_min_le_nat : ∀ (xs : List ℕ) (a : ℕ),
    xs.foldl min a ≤ a ∧ ∀ x ∈ xs, xs.foldl min a ≤ x := by
  intro xs
  induction xs with
  | nil => intro a; exact ⟨le_refl a, by simp⟩
  | cons y ys ih =>
    intro a
    simp only [List.foldl_cons]
    obtain ⟨h1, h2⟩ := ih (min a y)
    refine ⟨le_trans h1 (min_le_left a y), ?_⟩
    intro x hx
    rcases List.mem_cons.mp hx with hh | ht
    · subst hh
      exact le_trans h1 (min_le_right a x)
    · exact h2 x ht

lemma foldl_min_mem_nat : ∀ (xs : List ℕ) (a : ℕ), xs.foldl min a ∈ a :: xs := by
  intro xs
  induction xs with
  | nil => intro a; simp
  | cons y ys ih =>
    intro a
    simp only [List.foldl_cons]
    rcases List.mem_cons.mp (ih (min a y)) with hh | ht
    · rcases min_choice a y with hc | hc <;> rw [hc] at hh ⊢ <;> simp [hh]
    · simp [ht]

lemma npMaxNat_mem {l : List ℕ} (h : l ≠ []) : npMaxNat l ∈ l := by
  cases l with
  | nil => exact absurd rfl h
  | cons x xs =>
    unfold npMaxNat
    exact foldl_max_mem_nat xs x

lemma npMaxNat_ge {l : List ℕ} (x : ℕ) (hx : x ∈ l) : x ≤ npMaxNat l := by
  cases l with
  | nil => simp at hx
  | cons y ys =>
    unfold npMaxNat
    rcases List.mem_cons.mp hx with hh | ht
    · subst hh
      exact (foldl_max_le_nat ys x).1
    · exact (foldl_max_le_nat ys y).2 x ht

lemma npMinNat_mem {l : List ℕ} (h : l ≠ []) : npMinNat l ∈ l := by
  cases l with
  | nil => exact absurd rfl h
  | cons x xs =>
    unfold npMinNat
    exact foldl_min_mem_nat xs x

lemma npMinNat_le {l : List ℕ} (x : ℕ) (hx : x ∈ l) : npMinNat l ≤ x := by
  cases l with
  | nil => simp at hx
  | cons y ys =>
    unfold npMinNat
    rcases List.mem_cons.mp hx with hh | ht
    · subst hh
      exact (foldl_min_le_nat ys x).1
    · exact (foldl_min_le_nat ys y).2 x ht

lemma targetScanIdxs_lt (tgt : ScanArray) (rtStart rtEnd : ℚ) (j : ℕ)
    (hj : j ∈ targetScanIdxs tgt rtStart rtEnd) : j < tgt.rtArr.length := by
  unfold targetScanIdxs at hj
  exact List.mem_range.mp (List.mem_filter.mp hj).1

/-- C5 (amended): the interpolated reference series of cross-array matching
has exactly `max - min` points, where `min`/`max` are the smallest and
largest target scan indices whose retention time lies strictly inside the
span of the reference's resolved (half-open) retention-time series — one
point per target scan index in the half-open range `[min, max)`, the last
in-span scan being dropped by the slice `rt_arr[idxs.min():idxs.max()]`.  In
the 5-scan/3-scan scenario this yields 1 point, not one per in-span target
scan, see the counterexample. -/
theorem C5_interp_length (src tgt : ScanArray) (p : FeaturePointer) (useRel : Bool)
    (hne : targetScanIdxs tgt (npMin (pySlice src.rtArr (scanStart p) (scanEnd p)))
        (npMax (pySlice src.rtArr (scanStart p) (scanEnd p))) ≠ []) :
    (acrossInterpSeries src tgt p useRel).length =
      npMaxNat (targetScanIdxs tgt (npMin (pySlice src.rtArr (scanStart p) (scanEnd p)))
          (npMax (pySlice src.rtArr (scanStart p) (scanEnd p)))) -
        npMinNat (targetScanIdxs tgt
          (npMin (pySlice src.rtArr (scanStart p) (scanEnd p)))
          (npMax (pySlice src.rtArr (scanStart p) (scanEnd p)))) := by
  set I := targetScanIdxs tgt (npMin (pySlice src.rtArr (scanStart p) (scanEnd p)))
    (npMax (pySlice src.rtArr (scanStart p) (scanEnd p))) with hI
  have hmax_lt : npMaxNat I < tgt.rtArr.length :=
    targetScanIdxs_lt tgt _ _ _ (hI ▸ npMaxNat_mem hne)
  have hmin_le : npMinNat I ≤ npMaxNat I :=
    npMinNat_le (npMaxNat I) (npMaxNat_mem hne)
  unfold acrossInterpSeries npInterp
  rw [List.length_map, ← hI]
  exact pySlice_length tgt.rtArr (npMinNat I) (npMaxNat I) hmin_le (le_of_lt hmax_lt)

/-- Witness for C5: in the concrete scenario the strictly-in-span target
scans are `[0, 1]` and the interpolated series has `1 - 0` points. -/
theorem C5_witness :
    targetScanIdxs tgt3 (npMin (pySlice src5.rtArr (scanStart p5) (scanEnd p5)))
        (npMax (pySlice src5.rtArr (scanStart p5) (scanEnd p5))) ≠ [] ∧
      (acrossInterpSeries src5 tgt3 p5 false).length =
        npMaxNat (targetScanIdxs tgt3
            (npMin (pySlice src5.rtArr (scanStart p5) (scanEnd p5)))
            (npMax (pySlice src5.rtArr (scanStart p5) (scanEnd p5)))) -
          npMinNat (targetScanIdxs tgt3
            (npMin (pySlice src5.rtArr (scanStart p5) (scanEnd p5)))
            (npMax (pySlice src5.rtArr (scanStart p5) (scanEnd p5)))) :=
  ⟨by
    intro hcontra
    norm_num [targetScanIdxs, pySlice, scanStart, scanEnd, npMin, npMax, src5, tgt3, p5,
      List.range, List.range.loop] at hcontra
    exact List.noConfusion hcontra,
   C5_interp_length src5 tgt3 p5 false (by
    intro hcontra
    norm_num [targetScanIdxs, pySlice, scanStart, scanEnd, npMin, npMax, src5, tgt3, p5,
      List.range, List.range.loop] at hcontra
    exact List.noConfusion hcontra)⟩

/-- C5 counterexample: source spans retention times 10.0–10.4 over 5 scans,
target spans 10.1–10.3 over 3 scans; the claim demands an interpolated
series of exactly 3 points (one per target scan), but the code produces 1:
the reference's resolved rt series is itself half-open (10.0–10.3), the
strictly-inside comparison keeps target scans {10.1, 10.2}, and the
half-open index slice then drops the last of those. -/
theorem C5_counterexample :
    (acrossInterpSeries src5 tgt3 p5 false).length = 1 ∧ (1 : ℕ) ≠ 3 := by
  constructor
  · norm_num [acrossInterpSeries, targetScanIdxs, pySlice, scanStart, scanEnd, npMin,
      npMax, npMinNat, npMaxNat, npInterp, List.length_map, src5, tgt3, p5, List.range,
      List.range.loop]
  · decide

lemma sum_map_eq_range_sum {α : Type _} (l : List α) (f : α → ℚ) (d : α) :
    (l.map f).sum = ∑ i ∈ Finset.range l.length, f (l.getD i d) := by
  induction l with
  | nil => simp
  | cons x xs ih =>
    simp only [List.map_cons, List.sum_cons, List.length_cons]
    rw [Finset.sum_range_succ']
    simp only [List.getD_cons_succ, List.getD_cons_zero]
    rw [← ih]
    ring

/-- Cauchy-Schwarz for the centered sums of the correlation: the numerator
squared never exceeds the squared denominator. -/
lemma centeredNum_sq_le_centeredDen2 (c r : List ℚ) :
    (centeredNum c r) ^ 2 ≤ centeredDen2 c r := by
  unfold centeredNum centeredDen2
  rw [sum_map_eq_range_sum (jointPairs c r) _ (0, 0),
    sum_map_eq_range_sum (jointPairs c r) _ (0, 0),
    sum_map_eq_range_sum (jointPairs c r) _ (0, 0)]
  exact Finset.sum_mul_sq_le_sq_mul_sq (Finset.range (jointPairs c r).length)
    (fun i => ((jointPairs c r).getD i (0, 0)).1 - jointMeanFst c r)
    (fun i => ((jointPairs c r).getD i (0, 0)).2 - jointMeanSnd c r)

lemma centeredDen2_nonneg (c r : List ℚ) : 0 ≤ centeredDen2 c r := by
  unfold centeredDen2
  apply mul_nonneg
  · apply List.sum_nonneg
    intro x hx
    obtain ⟨p, _, hp⟩ := List.mem_map.mp hx
    rw [← hp]
    positivity
  · apply List.sum_nonneg
    intro x hx
    obtain ⟨p, _, hp⟩ := List.mem_map.mp hx
    rw [← hp]
    positivity

lemma ratio_in_unit_interval {num den2 : ℚ} (hle : num ^ 2 ≤ den2) (hne : den2 ≠ 0)
    (hnn : 0 ≤ den2) :
    -1 ≤ (num : ℝ) / Real.sqrt (den2 : ℝ) ∧ (num : ℝ) / Real.sqrt (den2 : ℝ) ≤ 1 := by
  have hpos : (0 : ℚ) < den2 := lt_of_le_of_ne hnn (Ne.symm hne)
  have hposR : (0 : ℝ) < (den2 : ℝ) := by exact_mod_cast hpos
  have hsq : 0 < Real.sqrt (den2 : ℝ) := Real.sqrt_pos.mpr hposR
  have habs : |(num : ℝ)| ≤ Real.sqrt (den2 : ℝ) := by
    rw [← Real.sqrt_sq_eq_abs]
    apply Real.sqrt_le_sqrt
    exact_mod_cast hle
  rw [abs_le] at habs
  constructor
  · rw [le_div_iff₀ hsq]
    linarith [habs.1]
  · rw [div_le_one hsq]
    exact habs.2

/-- C2: a candidate's Pearson correlation is undefined (NaN) exactly when
fewer than 4 jointly nonzero positions exist or the centered denominator is
zero (the correlation being computed over the jointly nonzero positions
only, per the definitions of `jointPairs`/`centeredNum`/`centeredDen2`);
whenever it is defined, its value `numerator / sqrt(denominator²)` lies in
`[-1, 1]`. -/
theorem C2_pearson_defined_and_bounded (c r : List ℚ) :
    (pearsonRaw c r = none ↔
      ((jointPairs c r).length < 4 ∨ centeredDen2 c r = 0)) ∧
    ∀ q, pearsonRaw c r = some q → -1 ≤ pearsonVal q ∧ pearsonVal q ≤ 1 := by
  constructor
  · unfold pearsonRaw
    by_cases h4 : (jointPairs c r).length < 4
    · simp [h4]
    · by_cases hd : centeredDen2 c r = 0
      · simp [h4, hd]
      · simp [h4, hd]
  · intro q hq
    unfold pearsonRaw at hq
    by_cases h4 : (jointPairs c r).length < 4
    · simp [h4] at hq
    · by_cases hd : centeredDen2 c r = 0
      · simp [h4, hd] at hq
      · simp only [h4, hd, if_neg, if_false, Option.some.injEq] at hq
        subst hq
        unfold pearsonVal
        exact ratio_in_unit_interval (centeredNum_sq_le_centeredDen2 c r) hd
          (centeredDen2_nonneg c r)

/-- Witness for C2: the self-correlation of `[1, 2, 3, 4]` is defined, with
numerator `5` and squared denominator `25`, and its value lies in `[-1, 1]`. -/
theorem C2_witness :
    pearsonRaw [1, 2, 3, 4] [1, 2, 3, 4] = some (5, 25) ∧
      (-1 ≤ pearsonVal (5, 25) ∧ pearsonVal (5, 25) ≤ 1) :=
  ⟨by
    norm_num [pearsonRaw, jointPairs, centeredNum, centeredDen2, jointMeanFst,
      jointMeanSnd, listMean, List.zip, List.zipWith, List.filter],
   (C2_pearson_defined_and_bounded [1, 2, 3, 4] [1, 2, 3, 4]).2 (5, 25) (by
    norm_num [pearsonRaw, jointPairs, centeredNum, centeredDen2, jointMeanFst,
      jointMeanSnd, listMean, List.zip, List.zipWith, List.filter])⟩

lemma FtrInv_newFeature (total n : ℕ) (mz intsy rt : ℚ) (hmz : mz ≠ 0)
    (hin : intsy ≠ 0) : FtrInv (newFeature total n mz intsy rt) := by
  unfold FtrInv newFeature
  constructor
  · simp
  · intro j
    simp only
    rw [getD_set_iff, getD_set_iff]
    simp only [List.length_replicate]
    by_cases hc : n = j ∧ n < total
    · simp [hc, hmz, hin]
    · simp [hc, getD_replicate_zero]

lemma FtrInv_applyMatch (f : Feature) (n : ℕ) (mz intsy rt : ℚ) (hf : FtrInv f)
    (hmz : mz ≠ 0) (hin : intsy ≠ 0) : FtrInv (applyMatch f n mz intsy rt) := by
  obtain ⟨hlen, hiff⟩ := hf
  unfold FtrInv applyMatch
  constructor
  · simp [hlen]
  · intro j
    simp only
    rw [getD_set_iff, getD_set_iff, hlen]
    by_cases hc : n = j ∧ n < f.intsyArr.length
    · rw [if_pos hc, if_pos hc]
      exact iff_of_true hmz hin
    · rw [if_neg hc, if_neg hc]
      exact hiff j

lemma processWip_inv (specMz specIntsy : List ℚ) (rt : ℚ) (n : ℕ) (tol : ℚ) (g : ℕ)
    (hs : ∀ j, j < specMz.length → specMz.getD j 0 ≠ 0 ∧ specIntsy.getD j 0 ≠ 0) :
    ∀ (fs : List Feature) (avail : List Bool), (∀ f ∈ fs, FtrInv f) →
      ∀ x ∈ (processWip specMz specIntsy rt n tol g fs avail).1, FtrInv x.1.1 := by
  intro fs
  induction fs with
  | nil =>
    intro avail _ x hx
    simp [processWip] at hx
  | cons f fs ih =>
    intro avail hall x hx
    rcases hm : matchFeature specMz tol avail (latestMz f) with _ | j0
    · have hexp : (processWip specMz specIntsy rt n tol g (f :: fs) avail).1 =
          (({ mzArr := f.mzArr, intsyArr := f.intsyArr, rtArr := f.rtArr
              gapCounter := f.gapCounter + 1 }, decide (g < f.gapCounter + 1)), none) ::
            (processWip specMz specIntsy rt n tol g fs avail).1 := by
        simp only [processWip, hm]
      rw [hexp] at hx
      rcases List.mem_cons.mp hx with hh | ht
      · subst hh
        exact hall f (by simp)
      · exact ih avail (fun f' hf' => hall f' (by simp [hf'])) x ht
    · have hj0 := matchFeature_eq_some.mp hm
      have hj0lt : j0 < specMz.length := (findClosestIdx_spec hj0.1).1
      have hexp : (processWip specMz specIntsy rt n tol g (f :: fs) avail).1 =
          ((applyMatch f n (specMz.getD j0 0) (specIntsy.getD j0 0) rt, false), some j0) ::
            (processWip specMz specIntsy rt n tol g fs (avail.set j0 false)).1 := by
        simp only [processWip, hm]
      rw [hexp] at hx
      rcases List.mem_cons.mp hx with hh | ht
      · subst hh
        exact FtrInv_applyMatch f n _ _ rt (hall f (by simp)) (hs j0 hj0lt).1
          (hs j0 hj0lt).2
      · exact ih (avail.set j0 false) (fun f' hf' => hall f' (by simp [hf'])) x ht

lemma frameStep_inv (tol : ℚ) (g : ℕ) (minIntsy : ℚ) (total n : ℕ) (s : Spectrum)
    (st : List Feature × List Feature)
    (hw : ∀ f ∈ st.1, FtrInv f) (hf : ∀ f ∈ st.2, FtrInv f)
    (hpk : ∀ p ∈ s.peaks, p.mz ≠ 0 ∧ p.intsy ≠ 0) :
    (∀ f ∈ (frameStep tol g minIntsy total n st s).1, FtrInv f) ∧
      (∀ f ∈ (frameStep tol g minIntsy total n st s).2, FtrInv f) := by
  unfold frameStep
  dsimp only
  by_cases hlen : ((filterPeaks s minIntsy).map Peak.mz).length < 2
  · rw [if_pos hlen]
    exact ⟨hw, hf⟩
  · rw [if_neg hlen]
    have hs : ∀ j, j < ((filterPeaks s minIntsy).map Peak.mz).length →
        ((filterPeaks s minIntsy).map Peak.mz).getD j 0 ≠ 0 ∧
          ((filterPeaks s minIntsy).map Peak.intsy).getD j 0 ≠ 0 := by
      intro j hj
      rw [List.length_map] at hj
      rw [getD_map_of_lt Peak.mz _ j 0 dfltPeak hj,
        getD_map_of_lt Peak.intsy _ j 0 dfltPeak hj]
      have hmem := getD_mem_of_lt (filterPeaks s minIntsy) j dfltPeak hj
      unfold filterPeaks at hmem
      exact hpk _ (List.mem_filter.mp hmem).1
    have hproc := processWip_inv ((filterPeaks s minIntsy).map Peak.mz)
      ((filterPeaks s minIntsy).map Peak.intsy) s.rt n tol g hs st.1
      (List.replicate ((filterPeaks s minIntsy).map Peak.mz).length true) hw
    constructor
    · intro x hx
      rw [List.mem_insertionSort] at hx
      rcases List.mem_append.mp hx with hk | hn
      · obtain ⟨y, hy, hyx⟩ := List.mem_map.mp hk
        rw [← hyx]
        exact hproc y (List.mem_filter.mp hy).1
      · obtain ⟨i, hi, hix⟩ := List.mem_map.mp hn
        rw [← hix]
        have hilt : i < ((filterPeaks s minIntsy).map Peak.mz).length :=
          List.mem_range.mp (List.mem_filter.mp hi).1
        exact FtrInv_newFeature total n _ _ s.rt (hs i hilt).1 (hs i hilt).2
    · intro x hx
      rcases List.mem_append.mp hx with ho | hm
      · exact hf x ho
      · rw [List.mem_reverse] at hm
        obtain ⟨y, hy, hyx⟩ := List.mem_map.mp hm
        rw [← hyx]
        exact hproc y (List.mem_filter.mp hy).1

lemma foldl_frameStep_inv (tol : ℚ) (g : ℕ) (minIntsy : ℚ) (total : ℕ) :
    ∀ (l : List (ℕ × Spectrum)) (st : List Feature × List Feature),
      (∀ f ∈ st.1, FtrInv f) → (∀ f ∈ st.2, FtrInv f) →
      (∀ q ∈ l, ∀ p ∈ q.2.peaks, p.mz ≠ 0 ∧ p.intsy ≠ 0) →
      (∀ f ∈ (l.foldl (fun st q => frameStep tol g minIntsy total q.1 st q.2) st).1,
          FtrInv f) ∧
        (∀ f ∈ (l.foldl (fun st q => frameStep tol g minIntsy total q.1 st q.2) st).2,
          FtrInv f) := by
  intro l
  induction l with
  | nil => intro st h1 h2 _; exact ⟨h1, h2⟩
  | cons q l ih =>
    intro st h1 h2 hq
    simp only [List.foldl_cons]
    have hstep := frameStep_inv tol g minIntsy total q.1 q.2 st h1 h2
      (hq q (by simp))
    exact ih _ hstep.1 hstep.2 (fun q' hq' => hq q' (by simp [hq']))

lemma buildFeatures_inv (spectra : List Spectrum) (tol : ℚ) (g : ℕ) (minIntsy : ℚ)
    (hpk : ∀ s ∈ spectra, ∀ p ∈ s.peaks, p.mz ≠ 0 ∧ p.intsy ≠ 0) :
    ∀ f ∈ buildFeaturesMasscube spectra tol g minIntsy, FtrInv f := by
  cases spectra with
  | nil => simp [buildFeaturesMasscube]
  | cons s0 rest =>
    intro f hf
    unfold buildFeaturesMasscube at hf
    dsimp only at hf
    rw [List.mem_insertionSort] at hf
    have hinit : ∀ f' ∈ initFeatures (rest.length + 1) s0, FtrInv f' := by
      intro f' hf'
      obtain ⟨p, hp, hpf⟩ := List.mem_map.mp hf'
      rw [← hpf]
      exact FtrInv_newFeature _ 0 _ _ s0.rt (hpk s0 (by simp) p hp).1
        (hpk s0 (by simp) p hp).2
    have henum : ∀ q ∈ List.enumFrom 1 rest, ∀ p ∈ q.2.peaks,
        p.mz ≠ 0 ∧ p.intsy ≠ 0 := by
      intro q hq
      have hq2 : q.2 ∈ rest := by
        have := List.mem_map_of_mem Prod.snd hq
        rwa [List.enumFrom_map_snd] at this
      exact hpk q.2 (by simp [hq2])
    have hfold := foldl_frameStep_inv tol g minIntsy (rest.length + 1)
      (List.enumFrom 1 rest) (initFeatures (rest.length + 1) s0, ([] : List Feature))
      hinit (by simp) henum
    rcases List.mem_append.mp hf with h2 | h1
    · exact hfold.2 f h2
    · exact hfold.1 f h1

/-- C4 (amended): provided every input peak carries a nonzero mass and a
nonzero intensity (true of real centroided data), the mass and intensity
matrices of every built SparseScanArray have identical sparsity patterns: a
lane/scan cell is nonzero in one iff it is nonzero in the other.  Without
that proviso the claim fails — the first frame is not intensity-filtered, so
a zero-intensity peak populates a mass cell with no intensity counterpart,
see the counterexample. -/
theorem C4_sparsity (spectra : List Spectrum) (tol : ℚ) (gapTol : ℕ) (minIntsy : ℚ)
    (scanNums : Option (List ℕ)) (uid : ℕ) (A : ScanArray)
    (hpk : ∀ s ∈ spectra, ∀ p ∈ s.peaks, p.mz ≠ 0 ∧ p.intsy ≠ 0)
    (hA : buildScanArray spectra tol gapTol minIntsy scanNums uid = some A)
    (i j : ℕ) :
    ((A.mzArr.getD i []).getD j 0 ≠ 0 ↔ (A.intsyArr.getD i []).getD j 0 ≠ 0) := by
  unfold buildScanArray at hA
  by_cases hmi : minIntsy < 0
  · simp [hmi] at hA
  · rw [if_neg hmi] at hA
    cases hfs : buildFeaturesMasscube spectra tol gapTol minIntsy with
    | nil => rw [hfs] at hA; simp at hA
    | cons f0 fs' =>
      rw [hfs] at hA
      dsimp only at hA
      simp only [Option.some.injEq] at hA
      subst hA
      dsimp only
      by_cases hi : i < (f0 :: fs').length
      · rw [getD_map_of_lt Feature.mzArr _ i [] dfltFeature hi,
          getD_map_of_lt Feature.intsyArr _ i [] dfltFeature hi]
        have hmem := getD_mem_of_lt (f0 :: fs') i dfltFeature hi
        have hmem2 : (f0 :: fs').getD i dfltFeature ∈
            buildFeaturesMasscube spectra tol gapTol minIntsy := by
          rw [hfs]
          exact hmem
        have hinv := buildFeatures_inv spectra tol gapTol minIntsy hpk _ hmem2
        exact hinv.2 j
      · push_neg at hi
        have hm1 : ((f0 :: fs').map Feature.mzArr).getD i [] = [] := by
          rw [List.getD_eq_getElem?_getD, List.getElem?_eq_none (by simpa using hi)]
          rfl
        have hm2 : ((f0 :: fs').map Feature.intsyArr).getD i [] = [] := by
          rw [List.getD_eq_getElem?_getD, List.getElem?_eq_none (by simpa using hi)]
          rfl
        rw [hm1, hm2]

/-- Witness for C4: the build over `demoSpectra` (all peaks with nonzero
mass and intensity) produces matching sparsity at cell (0, 0). -/
theorem C4_witness :
    (∀ s ∈ demoSpectra, ∀ p ∈ s.peaks, p.mz ≠ 0 ∧ p.intsy ≠ 0) ∧
      ((({ mzArr := [[5, 0, 0]], intsyArr := [[10, 0, 0]], rtArr := [1, 0, 0],
            scanNumArr := [0, 1, 2], uuid := 0 } : ScanArray).mzArr.getD 0 []).getD 0 0 ≠ 0 ↔
        (({ mzArr := [[5, 0, 0]], intsyArr := [[10, 0, 0]], rtArr := [1, 0, 0],
            scanNumArr := [0, 1, 2], uuid := 0 } : ScanArray).intsyArr.getD 0 []).getD 0 0 ≠ 0) :=
  ⟨by norm_num [demoSpectra],
   C4_sparsity demoSpectra 1 1 0 none 0
    { mzArr := [[5, 0, 0]], intsyArr := [[10, 0, 0]], rtArr := [1, 0, 0],
      scanNumArr := [0, 1, 2], uuid := 0 }
    (by norm_num [demoSpectra])
    (by norm_num [demoSpectra, buildScanArray, buildFeaturesMasscube, initFeatures,
      newFeature, frameStep, filterPeaks, List.insertionSort, List.orderedInsert,
      meanNonzeroMz, nonzeroMzs, listMean, List.enumFrom, npMax, List.range,
      List.range.loop, List.replicate]) 0 0⟩

/-- C4 counterexample: the claim without the nonzero proviso fails — a
single-scan acquisition whose only peak has mass 5 and intensity 0 builds
(the first frame is unfiltered), giving a mass matrix populated at (0, 0)
while the intensity matrix is empty there. -/
theorem C4_counterexample :
    (buildScanArray [{ peaks := [{ mz := 5, intsy := 0 }], rt := 0 }] 1 1 0 none 3).map
        (fun A => ((A.mzArr.getD 0 []).getD 0 0, (A.intsyArr.getD 0 []).getD 0 0)) =
      some (5, 0) ∧ ¬(((5 : ℚ) ≠ 0) ↔ ((0 : ℚ) ≠ 0)) := by
  constructor
  · norm_num [buildScanArray, buildFeaturesMasscube, initFeatures, newFeature, frameStep,
      filterPeaks, List.insertionSort, List.orderedInsert, meanNonzeroMz, nonzeroMzs,
      listMean, List.enumFrom, npMax, List.range, List.range.loop, List.replicate]
  · norm_num
